import Mathlib

/-!
Verification of the Euclidean rhythm generator, the Euclidean instrument
parameter updates, and the scale/arpeggiator sequence generation of the
forbidden-drum-machine UI sources, as shallow Lean embeddings.
-/

namespace ForbiddenDrum

/-- Remainder held by the accumulation loop of `shouldTriggerBeat`
(`src/unnamed/part_002`, lines 104-114) just before iteration `i`:
the loop does `remainder += beats; if (remainder >= steps) remainder -= steps`
once per iteration, starting from `remainder = 0`. -/
def euclidRem (steps beats : Nat) : Nat → Nat
  | 0 => 0
  | i + 1 =>
    if steps ≤ euclidRem steps beats i + beats
    then euclidRem steps beats i + beats - steps
    else euclidRem steps beats i + beats

/-- Embedding of `shouldTriggerBeat(step, steps, beats)` from
`src/unnamed/part_002`, lines 95-116: returns `false` when `beats === 0`
or `steps === 0`, `true` when `beats >= steps`, and otherwise runs the
accumulation loop for `i = 0 .. step` and returns `true` exactly when the
remainder reaches `steps` at iteration `i = step`. -/
def shouldTriggerBeat (step steps beats : Nat) : Bool :=
  if beats = 0 || steps = 0 then false
  else if steps ≤ beats then true
  else decide (steps ≤ euclidRem steps beats step + beats)

/-- The full pattern for `(steps, beats)`: the single-step membership test
`shouldTriggerBeat` applied to every index `0 .. steps-1`. -/
def euclideanPattern (steps beats : Nat) : List Bool :=
  (List.range steps).map (fun i => shouldTriggerBeat i steps beats)

/-- For `0 < beats < steps` the loop remainder before iteration `i`
is `(i * beats) % steps`. -/
theorem euclidRem_eq_mod (steps beats : Nat) (hb : 0 < beats) (hbs : beats < steps) :
    ∀ i, euclidRem steps beats i = (i * beats) % steps := by
  intro i
  induction i with
  | zero => simp [euclidRem]
  | succ n ih =>
    have hs : 0 < steps := lt_trans hb hbs
    have hrem : (n * beats) % steps < steps := Nat.mod_lt _ hs
    have hkey : ((n + 1) * beats) % steps = ((n * beats) % steps + beats) % steps := by
      rw [Nat.succ_mul, Nat.add_mod, Nat.mod_eq_of_lt hbs]
    rw [euclidRem, ih, hkey]
    by_cases hc : steps ≤ (n * beats) % steps + beats
    · have h2 : (n * beats) % steps + beats - steps < steps := by omega
      rw [if_pos hc, Nat.mod_eq_sub_mod hc]
      exact (Nat.mod_eq_of_lt h2).symm
    · rw [if_neg hc]
      exact (Nat.mod_eq_of_lt (by omega)).symm

/-- One iteration of the accumulation loop body, acting on the remainder. -/
def euclidStepFn (steps beats r : Nat) : Nat :=
  if steps ≤ r + beats then r + beats - steps else r + beats

theorem euclidRem_eq_iterate (steps beats : Nat) :
    ∀ i, euclidRem steps beats i = (euclidStepFn steps beats)^[i] 0 := by
  intro i
  induction i with
  | zero => rfl
  | succ n ih =>
    rw [Function.iterate_succ_apply', ← ih, euclidRem, euclidStepFn]

/-- Reference accumulation algorithm, written from the spec's own words
(§4.3): "iterate `i` from 0 to `step` inclusive, accumulate
`remainder += beats`, and whenever `remainder >= steps`, subtract `steps` and
mark step `i` as a trigger". The result is the list of marked indices. -/
def specEuclidMarks (steps beats step : Nat) : List Nat :=
  ((List.range (step + 1)).foldl
    (fun st i =>
      if steps ≤ st.1 + beats
      then (st.1 + beats - steps, st.2 ++ [i])
      else (st.1 + beats, st.2))
    ((0 : Nat), ([] : List Nat))).2

theorem specEuclid_fold_state (steps beats : Nat) : ∀ k,
    (List.range k).foldl
      (fun st i =>
        if steps ≤ st.1 + beats
        then (st.1 + beats - steps, st.2 ++ [i])
        else (st.1 + beats, st.2))
      ((0 : Nat), ([] : List Nat)) =
    (euclidRem steps beats k,
      (List.range k).filter (fun i => decide (steps ≤ euclidRem steps beats i + beats))) := by
  intro k
  induction k with
  | zero => rfl
  | succ n ih =>
    rw [List.range_succ, List.foldl_append, ih, List.filter_append]
    by_cases hc : steps ≤ euclidRem steps beats n + beats
    · simp only [List.foldl_cons, List.foldl_nil, if_pos hc, List.filter_cons,
        decide_eq_true hc, if_pos trivial, List.filter_nil]
      rw [euclidRem, if_pos hc]
    · simp only [List.foldl_cons, List.foldl_nil, if_neg hc, List.filter_cons,
        decide_eq_false hc, List.filter_nil]
      rw [euclidRem, if_neg hc]
      simp

/-- C2: for `steps ≥ 1`, `0 < beats < steps` and `step < steps`, the
single-step membership test agrees with the spec's reference accumulation
algorithm: `shouldTriggerBeat` returns `true` iff the accumulation marks
index `step`. -/
theorem shouldTriggerBeat_refines_spec (steps beats step : Nat)
    (hs : 1 ≤ steps) (hb : 0 < beats) (hbs : beats < steps) (_hstep : step < steps) :
    (shouldTriggerBeat step steps beats = true ↔ step ∈ specEuclidMarks steps beats step) := by
  have hbne : ¬ beats = 0 := by omega
  have hsne : ¬ steps = 0 := by omega
  have hge : ¬ steps ≤ beats := by omega
  rw [specEuclidMarks, specEuclid_fold_state]
  simp only [List.mem_filter, List.mem_range, shouldTriggerBeat, hbne, hsne,
    if_neg hge, Bool.if_false_left, decide_eq_true_eq]
  constructor
  · intro h
    exact ⟨Nat.lt_succ_self step, by simpa using h⟩
  · intro h
    simpa using h.2

/-- C2 witness: at `steps = 8, beats = 3`, index 2 both passes the membership
test and is marked by the reference accumulation. -/
theorem shouldTriggerBeat_refines_spec_witness :
    (1 ≤ 8 ∧ 0 < 3 ∧ 3 < 8 ∧ 2 < 8) ∧
    (shouldTriggerBeat 2 8 3 = true ↔ 2 ∈ specEuclidMarks 8 3 2) :=
  ⟨by decide,
    shouldTriggerBeat_refines_spec 8 3 2 (by decide) (by decide) (by decide) (by decide)⟩

theorem euclid_count_bounded : ∀ steps < 33, 1 ≤ steps → ∀ beats < steps + 1,
    (euclideanPattern steps beats).count true = beats := by
  decide

theorem euclideanPattern_get (steps beats i : Nat) (h : i < steps) :
    (euclideanPattern steps beats)[i]? = some (shouldTriggerBeat i steps beats) := by
  simp [euclideanPattern, List.getElem?_range, h]

/-- C3: for all `1 ≤ steps ≤ 32` and `0 ≤ beats ≤ steps`, the full pattern
(the membership test applied to every index `0..steps-1`) has exactly `beats`
true entries, and the rendered pattern agrees with the single-step membership
test at every index. -/
theorem euclid_pattern_count (steps : Nat) (h1 : 1 ≤ steps) (h2 : steps ≤ 32)
    (beats : Nat) (hb : beats ≤ steps) :
    (euclideanPattern steps beats).count true = beats ∧
    ∀ i < steps, (euclideanPattern steps beats)[i]? = some (shouldTriggerBeat i steps beats) := by
  refine ⟨euclid_count_bounded steps (by omega) h1 beats (by omega), ?_⟩
  intro i hi
  exact euclideanPattern_get steps beats i hi

/-- C3 witness: at `steps = 8, beats = 3` the pattern has exactly 3 true
entries and agrees with the membership test at index 2. -/
theorem euclid_pattern_count_witness :
    (1 ≤ 8 ∧ 8 ≤ 32 ∧ 3 ≤ 8 ∧ 2 < 8) ∧
    (euclideanPattern 8 3).count true = 3 ∧
    (euclideanPattern 8 3)[2]? = some (shouldTriggerBeat 2 8 3) :=
  ⟨by decide,
    (euclid_pattern_count 8 (by decide) (by decide) 3 (by decide)).1,
    (euclid_pattern_count 8 (by decide) (by decide) 3 (by decide)).2 2 (by decide)⟩

/-- C1 (counterexample): the pattern claimed by the spec for `steps=8, beats=3`
is not the one the membership test produces. -/
theorem euclid_example_pattern_refuted :
    euclideanPattern 8 3 ≠ [true, false, false, true, false, false, true, false] := by
  decide

/-- C1 (amended): for `steps=8` and `beats=3` the Euclidean pattern produced by
applying `shouldTriggerBeat` to every index `0..7` is exactly
`[false, false, true, false, false, true, false, true]` — the accumulation
marks indices 2, 5, 7, anchoring triggers at the last step. -/
theorem euclid_example_pattern :
    euclideanPattern 8 3 = [false, false, true, false, false, true, false, true] := by
  decide

/-- C7: for every `steps ≥ 1` and every step index, `beats = 0` yields no
trigger and `beats ≥ steps` makes every step trigger. -/
theorem euclid_edge_cases (steps beats step : Nat) (hs : 1 ≤ steps) :
    (beats = 0 → shouldTriggerBeat step steps beats = false) ∧
    (steps ≤ beats → shouldTriggerBeat step steps beats = true) := by
  constructor
  · intro h0
    simp [shouldTriggerBeat, h0]
  · intro hle
    have hbne : ¬ beats = 0 := by omega
    have hsne : ¬ steps = 0 := by omega
    simp [shouldTriggerBeat, hbne, hsne, hle]

/-- C7 witness: concrete instances of the edge cases at `steps = 8`. -/
theorem euclid_edge_cases_witness :
    1 ≤ 8 ∧ shouldTriggerBeat 3 8 0 = false ∧ shouldTriggerBeat 3 8 9 = true :=
  ⟨by decide, (euclid_edge_cases 8 0 3 (by decide)).1 rfl,
    (euclid_edge_cases 8 9 3 (by decide)).2 (by decide)⟩

/-- C8: for `1 ≤ beats ≤ steps` the final step always triggers, while the
first step (index 0) triggers exactly when `beats ≥ steps`. -/
theorem euclid_last_step_triggers (steps beats : Nat)
    (hb : 1 ≤ beats) (hbs : beats ≤ steps) :
    shouldTriggerBeat (steps - 1) steps beats = true ∧
    (shouldTriggerBeat 0 steps beats = true ↔ steps ≤ beats) := by
  have hs : 1 ≤ steps := le_trans hb hbs
  have hbne : ¬ beats = 0 := by omega
  have hsne : ¬ steps = 0 := by omega
  by_cases hge : steps ≤ beats
  · constructor
    · simp [shouldTriggerBeat, hbne, hsne, hge]
    · simp [shouldTriggerBeat, hbne, hsne, hge]
  · have hlt : beats < steps := by omega
    constructor
    · obtain ⟨m, rfl⟩ : ∃ m, steps = m + 1 := ⟨steps - 1, by omega⟩
      have hrem := euclidRem_eq_mod (m + 1) beats hb hlt m
      have hr : (m * beats) % (m + 1) < m + 1 := Nat.mod_lt _ (by omega)
      have h0 : ((m * beats) % (m + 1) + beats) % (m + 1) = 0 := by
        rw [Nat.add_mod, Nat.mod_mod_of_dvd, ← Nat.add_mod]
        · have : m * beats + beats = (m + 1) * beats := by ring
          rw [this, Nat.mul_mod_right]
        · exact dvd_refl _
      have hsum : (m * beats) % (m + 1) + beats = m + 1 := by
        by_cases hc : m + 1 ≤ (m * beats) % (m + 1) + beats
        · rw [Nat.mod_eq_sub_mod hc, Nat.mod_eq_of_lt (by omega)] at h0
          omega
        · rw [Nat.mod_eq_of_lt (by omega)] at h0
          omega
      simp only [shouldTriggerBeat, hbne, hsne, if_neg (by omega : ¬ (m + 1 ≤ beats))]
      simp only [Nat.add_sub_cancel, hrem, hsum]
      simp
    · simp only [shouldTriggerBeat, hbne, hsne, if_neg hge]
      simp only [euclidRem, Bool.if_false_left]
      constructor
      · intro h
        simp at h
        omega
      · intro h
        omega

/-- C8 witness: at `steps = 8, beats = 3` the last index (7) triggers and
index 0 does not (since `8 ≤ 3` is false). -/
theorem euclid_last_step_triggers_witness :
    1 ≤ 3 ∧ 3 ≤ 8 ∧ shouldTriggerBeat 7 8 3 = true :=
  ⟨by decide, by decide, by
    have h := (euclid_last_step_triggers 8 3 (by decide) (by decide)).1
    simpa using h⟩

/-- C9: `shouldTriggerBeat` is total on all natural-number inputs — its loop
remainder is exactly `step` bounded applications of the loop body `euclidStepFn`
(so the loop takes at most `step + 1` iterations) — and whenever `steps = 0` or
`beats = 0` it returns `false` instead of failing or looping. -/
theorem shouldTriggerBeat_total_safe (step steps beats : Nat) :
    euclidRem steps beats step = (euclidStepFn steps beats)^[step] 0 ∧
    ((steps = 0 ∨ beats = 0) → shouldTriggerBeat step steps beats = false) := by
  refine ⟨euclidRem_eq_iterate steps beats step, ?_⟩
  rintro (h | h) <;> simp [shouldTriggerBeat, h]

/-- C9 witness: at `steps = 0` (degenerate input) the membership test returns
`false` at step index 5 with `beats = 7`. -/
theorem shouldTriggerBeat_total_safe_witness :
    ((0 : Nat) = 0 ∨ (7 : Nat) = 0) ∧ shouldTriggerBeat 5 0 7 = false :=
  ⟨Or.inl rfl, (shouldTriggerBeat_total_safe 5 0 7).2 (Or.inl rfl)⟩

/-- Per-instrument Euclidean parameters (`EuclideanInstrument` interface,
`src/unnamed/part_002`, lines 6-10). Slider values are integers; `tempoMult`
is a decimal, modelled as a rational. -/
structure EuclideanInstrument where
  steps : Int
  beats : Int
  tempoMult : ℚ
deriving DecidableEq

/-- The four instrument states of the Euclidean page
(`src/unnamed/part_002`, lines 23-45). -/
structure EuclideanPageState where
  kick : EuclideanInstrument
  clap : EuclideanInstrument
  hihat : EuclideanInstrument
  chord : EuclideanInstrument
deriving DecidableEq

/-- Initial page state (`useState` initialisers, lines 23-45): kick 8/3,
clap 8/2, hihat 16/7, chord 8/1. -/
def initialEuclideanState : EuclideanPageState :=
  { kick := { steps := 8, beats := 3, tempoMult := 1 }
    clap := { steps := 8, beats := 2, tempoMult := 1 }
    hihat := { steps := 16, beats := 7, tempoMult := 2 }
    chord := { steps := 8, beats := 1, tempoMult := 1/2 } }

/-- `updateKickSteps` (lines 156-160): `steps := Math.max(1, Math.min(32, steps))`,
leaving `beats` untouched. -/
def updateKickSteps (s : EuclideanPageState) (steps : Int) : EuclideanPageState :=
  { s with kick := { s.kick with steps := max 1 (min 32 steps) } }

/-- `updateKickBeats` (lines 162-169): `beats := Math.max(0, Math.min(kick.steps, beats))`. -/
def updateKickBeats (s : EuclideanPageState) (beats : Int) : EuclideanPageState :=
  { s with kick := { s.kick with beats := max 0 (min s.kick.steps beats) } }

/-- `updateKickTempoMult` (lines 171-178). -/
def updateKickTempoMult (s : EuclideanPageState) (t : ℚ) : EuclideanPageState :=
  { s with kick := { s.kick with tempoMult := max (1/10) (min 4 t) } }

/-- `updateClapSteps` (lines 180-184). -/
def updateClapSteps (s : EuclideanPageState) (steps : Int) : EuclideanPageState :=
  { s with clap := { s.clap with steps := max 1 (min 32 steps) } }

/-- `updateClapBeats` (lines 186-193). -/
def updateClapBeats (s : EuclideanPageState) (beats : Int) : EuclideanPageState :=
  { s with clap := { s.clap with beats := max 0 (min s.clap.steps beats) } }

/-- `updateClapTempoMult` (lines 195-202). -/
def updateClapTempoMult (s : EuclideanPageState) (t : ℚ) : EuclideanPageState :=
  { s with clap := { s.clap with tempoMult := max (1/10) (min 4 t) } }

/-- `updateHihatSteps` (lines 204-208). -/
def updateHihatSteps (s : EuclideanPageState) (steps : Int) : EuclideanPageState :=
  { s with hihat := { s.hihat with steps := max 1 (min 32 steps) } }

/-- `updateHihatBeats` (lines 210-217). -/
def updateHihatBeats (s : EuclideanPageState) (beats : Int) : EuclideanPageState :=
  { s with hihat := { s.hihat with beats := max 0 (min s.hihat.steps beats) } }

/-- `updateHihatTempoMult` (lines 219-226). -/
def updateHihatTempoMult (s : EuclideanPageState) (t : ℚ) : EuclideanPageState :=
  { s with hihat := { s.hihat with tempoMult := max (1/10) (min 4 t) } }

/-- `updateChordSteps` (lines 228-232). -/
def updateChordSteps (s : EuclideanPageState) (steps : Int) : EuclideanPageState :=
  { s with chord := { s.chord with steps := max 1 (min 32 steps) } }

/-- `updateChordBeats` (lines 234-241). -/
def updateChordBeats (s : EuclideanPageState) (beats : Int) : EuclideanPageState :=
  { s with chord := { s.chord with beats := max 0 (min s.chord.steps beats) } }

/-- `updateChordTempoMult` (lines 243-250). -/
def updateChordTempoMult (s : EuclideanPageState) (t : ℚ) : EuclideanPageState :=
  { s with chord := { s.chord with tempoMult := max (1/10) (min 4 t) } }

/-- The spec's per-instrument invariant: `steps >= 1` and `beats <= steps`. -/
def instrumentInvariant (i : EuclideanInstrument) : Prop :=
  1 ≤ i.steps ∧ i.beats ≤ i.steps

instance (i : EuclideanInstrument) : Decidable (instrumentInvariant i) := by
  unfold instrumentInvariant
  infer_instance

/-- C4 (code bug): the initial kick state satisfies `beats ≤ steps`, yet a
single `updateKickSteps 2` — which clamps `steps` into `[1, 32]` but never
re-clamps `beats` — yields kick `steps = 2, beats = 3`, violating the
invariant `beats ≤ steps`. -/
theorem euclid_invariant_violated :
    instrumentInvariant initialEuclideanState.kick ∧
    (updateKickSteps initialEuclideanState 2).kick.steps = 2 ∧
    (updateKickSteps initialEuclideanState 2).kick.beats = 3 ∧
    ¬ instrumentInvariant (updateKickSteps initialEuclideanState 2).kick := by
  refine ⟨⟨by decide, by decide⟩, rfl, rfl, ?_⟩
  intro h
  exact absurd h.2 (by decide)

/-- Embedding of the duration computation of `generateSequence` in
`src/unnamed/part_003`, line 75:
`Math.max(1, Math.round(noteLength * 4 * 8))`. -/
def durationPulses (noteLength : ℚ) : ℤ :=
  max 1 (round (noteLength * 4 * 8))

/-- Embedding of the identical duration computation at the chord-arpeggiator
call site (`src/src/components/TranceRiffPage.tsx`, line 519). -/
def tranceDurationPulses (noteLength : ℚ) : ℤ :=
  max 1 (round (noteLength * 4 * 8))

/-- C5: for every positive note-length fraction the duration of a generated
entry is `max 1 (round (noteLength * 4 * 8))`, hence at least 1 pulse, and the
two call sites (scale-degree and chord-arpeggiator) compute the same value;
`noteLength = 1/8` gives 4 pulses and `noteLength = 1/32` gives 1 pulse at
both call sites. -/
theorem duration_pulses_contract :
    (∀ f : ℚ, 0 < f →
      durationPulses f = max 1 (round (f * 4 * 8)) ∧
      1 ≤ durationPulses f ∧
      tranceDurationPulses f = durationPulses f) ∧
    durationPulses (1/8) = 4 ∧ durationPulses (1/32) = 1 ∧
    tranceDurationPulses (1/8) = 4 ∧ tranceDurationPulses (1/32) = 1 := by
  refine ⟨fun f _ => ⟨rfl, le_max_left _ _, rfl⟩, ?_, ?_, ?_, ?_⟩ <;>
    · show max 1 (round ((_ : ℚ) * 4 * 8)) = _
      norm_num [round_eq]

/-- C5 witness: the duration contract applied at `noteLength = 1/8`. -/
theorem duration_pulses_contract_witness :
    (0 : ℚ) < 1/8 ∧ 1 ≤ durationPulses (1/8) :=
  ⟨by norm_num, (duration_pulses_contract.1 (1/8) (by norm_num)).2.1⟩

/-- Token split of the sequence pattern (`src/unnamed/part_003`, lines 62-64):
split on whitespace/comma runs and keep only nonempty tokens
(`sequencePattern.split(/[\s,]+/).filter(token => token.length > 0)`). -/
def splitTokens (s : String) : List String :=
  (s.split (fun c => c.isWhitespace || c == ',')).filter (fun t => decide (0 < t.length))

/-- The leading decimal-digit run of a character list, if any. -/
def leadingDigits (cs : List Char) : Option Nat :=
  let ds := cs.takeWhile Char.isDigit
  if ds.isEmpty then none
  else some (ds.foldl (fun acc c => 10 * acc + (c.toNat - 48)) 0)

/-- Model of the JavaScript builtin `parseInt(token)` as used on the split
tokens (radix 10): skip leading whitespace, read an optional sign, then a
leading digit run; `none` models `NaN` (no digits found). -/
def parseIntJS (s : String) : Option Int :=
  match s.toList.dropWhile Char.isWhitespace with
  | '-' :: rest => (leadingDigits rest).map (fun n => -(n : Int))
  | '+' :: rest => (leadingDigits rest).map (fun n => (n : Int))
  | cs => (leadingDigits cs).map (fun n => (n : Int))

/-- Model of the JavaScript `token.toLowerCase()`: lower-case every
character. -/
def toLowerJS (s : String) : String :=
  ⟨s.data.map Char.toLower⟩

/-- Per-token body of the `patternTokens.map` in `generateSequence`
(`src/unnamed/part_003`, lines 71-95). The tonal-library lookups
`Scale.degrees(scaleName)` and `Note.freq` are external dependencies, passed
in as function parameters (`Note.freq(noteName) || 0` is modelled by
`Option.getD 0`). Produces a `(frequency, duration, velocity)` triple. -/
def scaleMapToken (getScaleDegree : Int → String) (noteFreq : String → Option ℚ)
    (noteLength : ℚ) (token : String) : ℚ × ℤ × ℚ :=
  let duration := durationPulses noteLength
  let velocity : ℚ := 7/10
  if toLowerJS token = "x" then
    (0, duration, 0)
  else
    match parseIntJS token with
    | none => (0, duration, 0)
    | some scaleDegree =>
      let noteName := getScaleDegree scaleDegree
      let frequency := (noteFreq noteName).getD 0
      (frequency, duration, velocity)

/-- `generateSequence` of the scale-degree generator
(`src/unnamed/part_003`, lines 60-101): map the token body over the split
pattern tokens. -/
def generateSequence (getScaleDegree : Int → String) (noteFreq : String → Option ℚ)
    (noteLength : ℚ) (sequencePattern : String) : List (ℚ × ℤ × ℚ) :=
  (splitTokens sequencePattern).map (scaleMapToken getScaleDegree noteFreq noteLength)

/-- C6: every token that is the rest token `"x"` (case-insensitive) or that
does not parse as an integer yields the silence triple
(frequency 0, velocity 0), for any scale/frequency lookup functions; and
generation is total — it produces exactly one triple per token, never an
error. -/
theorem scale_invalid_tokens_silent :
    (∀ (gsd : Int → String) (nf : String → Option ℚ) (nl : ℚ) (tok : String),
      (toLowerJS tok = "x" ∨ parseIntJS tok = none) →
      scaleMapToken gsd nf nl tok = (0, durationPulses nl, 0)) ∧
    (∀ (gsd : Int → String) (nf : String → Option ℚ) (nl : ℚ) (pat : String),
      (generateSequence gsd nf nl pat).length = (splitTokens pat).length) := by
  constructor
  · intro gsd nf nl tok h
    by_cases hx : toLowerJS tok = "x"
    · simp [scaleMapToken, hx]
    · rcases h with h | h
      · exact absurd h hx
      · simp [scaleMapToken, hx, h]
  · intro gsd nf nl pat
    simp [generateSequence]

/-- C6 witness: the rest token `"X"` and the unparseable token `"abc"` both
map to silence under concrete lookup functions. -/
theorem scale_invalid_tokens_silent_witness :
    ((toLowerJS "X" = "x" ∨ parseIntJS "X" = none) ∧
      scaleMapToken (fun _ => "C3") (fun _ => none) (1/8) "X" =
        (0, durationPulses (1/8), 0)) ∧
    ((toLowerJS "abc" = "x" ∨ parseIntJS "abc" = none) ∧
      scaleMapToken (fun _ => "C3") (fun _ => none) (1/8) "abc" =
        (0, durationPulses (1/8), 0)) :=
  ⟨⟨Or.inl (by decide), scale_invalid_tokens_silent.1 _ _ _ _ (Or.inl (by decide))⟩,
    ⟨Or.inr (by decide), scale_invalid_tokens_silent.1 _ _ _ _ (Or.inr (by decide))⟩⟩

end ForbiddenDrum
